import Mathlib

/-!
Verification of the paster snippet-storage utility.

The development shallowly embeds the repository's data model and operations:

* `PasterItem` and the pure collection operations `createItem`, `updateItem`,
  `deleteItems` from `src/src/utils/storage.ts` (the same functions appear in
  the unnamed storage revision).
* A model of the JSON platform functions `JSON.parse` / `JSON.stringify` as
  used by the persistence adapter (`loadItems` / `saveItems` in
  `src/src/utils/storage.ts`, `loadItemsFromDisk` / `saveItemsToDisk` in
  `src/electron/main.ts`): an executable printer and parser over a `Json`
  value type, with numbers modelled as integers (the repository only ever
  stores integer epoch-millisecond values).
* The View Controller of `src/src/App.tsx` as a step function on an explicit
  application state, one constructor of `Ev` per React event handler, plus an
  `enabled` relation recording which handlers the rendered UI can fire in
  each UI state.
-/

namespace Paster

/-- A stored snippet record (the `PasterItem` type of the repository).
`createdAt` is epoch milliseconds, modelled as a natural number. -/
structure PasterItem where
  id : String
  label : String
  content : String
  createdAt : Nat
  deriving DecidableEq, Repr

/-- `createItem` from `src/src/utils/storage.ts` lines 19-27: both `id` and
`createdAt` come from one `Date.now()` reading, passed here as the explicit
argument `now`; the id is its decimal string. -/
def createItem (label content : String) (now : Nat) : PasterItem :=
  { id := toString now, label := label, content := content, createdAt := now }

/-- `updateItem` from `src/src/utils/storage.ts` lines 29-38: map over the
collection, replacing `label` and `content` of any record whose id matches. -/
def updateItem (items : List PasterItem) (id label content : String) : List PasterItem :=
  items.map (fun item => if item.id = id then { item with label := label, content := content } else item)

/-- `deleteItems` from `src/src/utils/storage.ts` lines 40-45: keep the
records whose id is not in `ids` (`!ids.includes(item.id)`). -/
def deleteItems (items : List PasterItem) (ids : List String) : List PasterItem :=
  items.filter (fun item => ! ids.contains item.id)

/-- Model of JavaScript `String.prototype.trim` on a character list: strip
leading and trailing whitespace. (Lean's own `String.trim` is equivalent but
is defined through byte positions, which do not reduce well; the code under
verification only ever consumes the trimmed string.) -/
def trimChars (cs : List Char) : List Char :=
  ((cs.dropWhile Char.isWhitespace).reverse.dropWhile Char.isWhitespace).reverse

/-- JavaScript `s.trim()`. -/
def strTrim (s : String) : String :=
  String.mk (trimChars s.data)

/-- JSON values as `JSON.parse` / `JSON.stringify` handle them. Numbers are
modelled as integers: the repository only stores integer epoch-ms values, and
the printer below never emits a fraction or an exponent. -/
inductive Json where
  | null : Json
  | bool (b : Bool) : Json
  | num (n : Int) : Json
  | str (s : String) : Json
  | arr (elems : List Json) : Json
  | obj (fields : List (String × Json)) : Json
  deriving Repr

/-- The decimal digits of a natural number, most significant first
(`Nat.digitChar` maps 0-9 to '0'-'9'). -/
def natChars (n : Nat) : List Char :=
  if n < 10 then [Nat.digitChar n]
  else natChars (n / 10) ++ [Nat.digitChar (n % 10)]
decreasing_by exact Nat.div_lt_self (by omega) (by omega)

/-- Decimal notation of an integer, as `JSON.stringify` prints one. -/
def intChars (i : Int) : List Char :=
  if i < 0 then '-' :: natChars i.natAbs else natChars i.toNat

/-- How `JSON.stringify` escapes one character inside a string literal:
quote, backslash and the named control characters get two-character escapes,
any other control character below U+0020 a `\u00XX` escape (lowercase hex,
which is what `Nat.digitChar` produces), and everything else is verbatim. -/
def escChar (c : Char) : List Char :=
  if c = '"' then ['\\', '"']
  else if c = '\\' then ['\\', '\\']
  else if c = '\n' then ['\\', 'n']
  else if c = '\r' then ['\\', 'r']
  else if c = '\t' then ['\\', 't']
  else if c = '\x08' then ['\\', 'b']
  else if c = '\x0c' then ['\\', 'f']
  else if c.toNat < 32 then ['\\', 'u', '0', '0', Nat.digitChar (c.toNat / 16), Nat.digitChar (c.toNat % 16)]
  else [c]

/-- A JSON string literal: quote, escaped body, quote. -/
def strChars (s : String) : List Char :=
  '"' :: (s.data.flatMap escChar ++ ['"'])

mutual

/-- The characters `JSON.stringify` (no spacing argument) emits for a value. -/
def jsonChars : Json → List Char
  | .null => "null".data
  | .bool true => "true".data
  | .bool false => "false".data
  | .num i => intChars i
  | .str s => strChars s
  | .arr xs => '[' :: elemsChars xs
  | .obj fs => '{' :: fieldsChars fs

/-- Array body after the opening bracket: elements separated by commas,
closed by the bracket. -/
def elemsChars : List Json → List Char
  | [] => [']']
  | x :: xs => jsonChars x ++ elemsTailChars xs

/-- Array body after one element: either the closing bracket or a comma and
the remaining elements. -/
def elemsTailChars : List Json → List Char
  | [] => [']']
  | x :: xs => ',' :: (jsonChars x ++ elemsTailChars xs)

/-- Object body after the opening brace. -/
def fieldsChars : List (String × Json) → List Char
  | [] => ['}']
  | (k, v) :: fs => strChars k ++ ':' :: (jsonChars v ++ fieldsTailChars fs)

/-- Object body after one member. -/
def fieldsTailChars : List (String × Json) → List Char
  | [] => ['}']
  | (k, v) :: fs => ',' :: (strChars k ++ ':' :: (jsonChars v ++ fieldsTailChars fs))

end

/-- `JSON.stringify` on a value. -/
def jsonStringify (v : Json) : String :=
  String.mk (jsonChars v)

/-- The character a short JSON escape stands for (`JSON.parse` accepts
exactly these after a backslash, besides `\uXXXX`). -/
def unescChar (e : Char) : Option Char :=
  if e = '"' then some '"'
  else if e = '\\' then some '\\'
  else if e = '/' then some '/'
  else if e = 'n' then some '\n'
  else if e = 'r' then some '\r'
  else if e = 't' then some '\t'
  else if e = 'b' then some '\x08'
  else if e = 'f' then some '\x0c'
  else none

/-- The value of a hexadecimal digit. -/
def hexVal (c : Char) : Option Nat :=
  if '0' ≤ c ∧ c ≤ '9' then some (c.toNat - 48)
  else if 'a' ≤ c ∧ c ≤ 'f' then some (c.toNat - 87)
  else if 'A' ≤ c ∧ c ≤ 'F' then some (c.toNat - 55)
  else none

/-- Worker for `parseStrBody`. `fuel` bounds the number of decoded
characters; every call decodes one character (or closes the string) and
consumes at least one input character, so the input length is always enough
fuel. Raw control characters are refused, as `JSON.parse` refuses them. -/
def parseStrBodyFuel : Nat → List Char → Option (List Char × List Char)
  | 0, _ => none
  | _ + 1, [] => none
  | fuel + 1, c :: rest =>
    if c = '"' then some ([], rest)
    else if c = '\\' then
      match rest with
      | [] => none
      | e :: rest2 =>
        if e = 'u' then
          match rest2 with
          | h1 :: h2 :: h3 :: h4 :: rest3 => do
            let a ← hexVal h1
            let b ← hexVal h2
            let c2 ← hexVal h3
            let d ← hexVal h4
            let (cs, r) ← parseStrBodyFuel fuel rest3
            pure (Char.ofNat (((a * 16 + b) * 16 + c2) * 16 + d) :: cs, r)
          | _ => none
        else do
          let u ← unescChar e
          let (cs, r) ← parseStrBodyFuel fuel rest2
          pure (u :: cs, r)
    else if c.toNat < 32 then none
    else do
      let (cs, r) ← parseStrBodyFuel fuel rest
      pure (c :: cs, r)

/-- Parse a JSON string body after the opening quote: the decoded characters
and the input after the closing quote. -/
def parseStrBody (cs : List Char) : Option (List Char × List Char) :=
  parseStrBodyFuel cs.length cs

/-- Read a run of decimal digits left to right, accumulating their value;
stops at the first non-digit. -/
def digitsVal : List Char → Nat → Nat × List Char
  | [], acc => (acc, [])
  | c :: rest, acc =>
    if c.isDigit then digitsVal rest (acc * 10 + (c.toNat - 48)) else (acc, c :: rest)

/-- Read a decimal natural number: at least one digit. -/
def parseNatChars : List Char → Option (Nat × List Char)
  | [] => none
  | c :: rest => if c.isDigit then some (digitsVal (c :: rest) 0) else none

mutual

/-- Parse one JSON value. `fuel` bounds the recursion depth; every recursive
call decreases it by one, and `jsonParse` supplies enough for any input.
Fractions, exponents and the rejection of leading zeros are not modelled:
the printer above never emits them. -/
def parseValue : Nat → List Char → Option (Json × List Char)
  | 0, _ => none
  | _ + 1, [] => none
  | fuel + 1, c :: rest =>
    if c = '"' then do
      let (cs, r) ← parseStrBody rest
      pure (.str (String.mk cs), r)
    else if c = '[' then do
      let (xs, r) ← parseElems fuel rest
      pure (.arr xs, r)
    else if c = '{' then do
      let (fs, r) ← parseFields fuel rest
      pure (.obj fs, r)
    else if c = '-' then do
      let (n, r) ← parseNatChars rest
      pure (.num (-(n : Int)), r)
    else if c.isDigit then
      let (n, r) := digitsVal (c :: rest) 0
      some (.num (n : Int), r)
    else if c = 'n' then
      match rest with
      | 'u' :: 'l' :: 'l' :: r => some (.null, r)
      | _ => none
    else if c = 't' then
      match rest with
      | 'r' :: 'u' :: 'e' :: r => some (.bool true, r)
      | _ => none
    else if c = 'f' then
      match rest with
      | 'a' :: 'l' :: 's' :: 'e' :: r => some (.bool false, r)
      | _ => none
    else none

/-- Parse an array body after the opening bracket. -/
def parseElems : Nat → List Char → Option (List Json × List Char)
  | 0, _ => none
  | _ + 1, [] => none
  | fuel + 1, c :: rest =>
    if c = ']' then some ([], rest)
    else do
      let (v, r) ← parseValue fuel (c :: rest)
      let (vs, r2) ← parseElemsTail fuel r
      pure (v :: vs, r2)

/-- Parse an array body after one element. -/
def parseElemsTail : Nat → List Char → Option (List Json × List Char)
  | 0, _ => none
  | _ + 1, [] => none
  | fuel + 1, c :: rest =>
    if c = ']' then some ([], rest)
    else if c = ',' then do
      let (v, r) ← parseValue fuel rest
      let (vs, r2) ← parseElemsTail fuel r
      pure (v :: vs, r2)
    else none

/-- Parse an object body after the opening brace. -/
def parseFields : Nat → List Char → Option (List (String × Json) × List Char)
  | 0, _ => none
  | _ + 1, [] => none
  | fuel + 1, c :: rest =>
    if c = '}' then some ([], rest)
    else if c = '"' then do
      let (k, r) ← parseStrBody rest
      match r with
      | ':' :: r2 => do
        let (v, r3) ← parseValue fuel r2
        let (fs, r4) ← parseFieldsTail fuel r3
        pure ((String.mk k, v) :: fs, r4)
      | _ => none
    else none

/-- Parse an object body after one member. -/
def parseFieldsTail : Nat → List Char → Option (List (String × Json) × List Char)
  | 0, _ => none
  | _ + 1, [] => none
  | fuel + 1, c :: rest =>
    if c = '}' then some ([], rest)
    else if c = ',' then
      match rest with
      | '"' :: rest2 => do
        let (k, r) ← parseStrBody rest2
        match r with
        | ':' :: r2 => do
          let (v, r3) ← parseValue fuel r2
          let (fs, r4) ← parseFieldsTail fuel r3
          pure ((String.mk k, v) :: fs, r4)
        | _ => none
      | _ => none
    else none

end

/-- `JSON.parse` on a whole string: the parse must consume every character. -/
def jsonParse (s : String) : Option Json :=
  match parseValue (s.data.length + 1) s.data with
  | some (v, []) => some v
  | _ => none

mutual

/-- Fuel sufficient for `parseValue` to parse the printed form of a value. -/
def needV : Json → Nat
  | .null => 1
  | .bool _ => 1
  | .num _ => 1
  | .str _ => 1
  | .arr xs => 1 + needE xs
  | .obj fs => 1 + needF fs

/-- Fuel sufficient for `parseElems` on a printed array body. -/
def needE : List Json → Nat
  | [] => 1
  | x :: xs => 1 + max (needV x) (needET xs)

/-- Fuel sufficient for `parseElemsTail` on a printed array tail. -/
def needET : List Json → Nat
  | [] => 1
  | x :: xs => 1 + max (needV x) (needET xs)

/-- Fuel sufficient for `parseFields` on a printed object body. -/
def needF : List (String × Json) → Nat
  | [] => 1
  | (_, v) :: fs => 1 + max (needV v) (needFT fs)

/-- Fuel sufficient for `parseFieldsTail` on a printed object tail. -/
def needFT : List (String × Json) → Nat
  | [] => 1
  | (_, v) :: fs => 1 + max (needV v) (needFT fs)

end

/-- True when the input does not continue a decimal literal: a number printed
before this suffix parses back exactly. After a JSON value the input can only
continue with a comma, a closing bracket or brace, or end, never a digit. -/
def okTail : List Char → Bool
  | [] => true
  | c :: _ => ! c.isDigit

/-- One snippet as `JSON.stringify` sees it: the object fields in the
insertion order of the literal in `createItem`. -/
def encodeItem (it : PasterItem) : Json :=
  .obj [("id", .str it.id), ("label", .str it.label),
        ("content", .str it.content), ("createdAt", .num (it.createdAt : Int))]

/-- A snippet collection as one JSON array. -/
def encodeItems (items : List PasterItem) : Json :=
  .arr (items.map encodeItem)

/-- `saveItems` (`src/src/utils/storage.ts` lines 15-17) and `saveItemsToDisk`
(`src/electron/main.ts` lines 23-25): the serialized bytes written to the
store, `JSON.stringify(items)`. -/
def saveItems (items : List PasterItem) : String :=
  jsonStringify (encodeItems items)

/-- `loadItems` (`src/src/utils/storage.ts` lines 5-13) and
`loadItemsFromDisk` (`src/electron/main.ts` lines 14-21): a missing store
yields `[]`, a deserialization error is caught and yields `[]`, and a
successful parse is returned as is (the TS `JSON.parse(stored)` result is
cast, never validated, so any JSON value can come back). -/
def loadItems (stored : Option String) : Json :=
  match stored with
  | none => Json.arr []
  | some s =>
    match jsonParse s with
    | some v => v
    | none => Json.arr []

/-- The store bytes written when the collection loaded from the store is
saved back: `JSON.stringify` applied to whatever `loadItems` returned. -/
def saveRawItems (v : Json) : String :=
  jsonStringify v

/-- The three UI states of the View Controller
(`type AppState = 'default' | 'editList' | 'editItem'`, `src/src/App.tsx`). -/
inductive UiState where
  | default : UiState
  | editList : UiState
  | editItem : UiState
  deriving DecidableEq, Repr

/-- The application state of `App` (`src/src/App.tsx` lines 9-16): the React
state hooks, plus the persisted store bytes and two output histories. The
`writes` history records every system-clipboard write the component
triggered; `toasts` records every toast shown with its duration in
milliseconds (`showToast` clears after 2000 ms). -/
structure AppSt where
  items : List PasterItem
  ui : UiState
  selectedIds : List String
  editingItem : Option PasterItem
  editLabel : String
  editContent : String
  store : Option String
  writes : List String
  toasts : List (String × Nat)
  deriving DecidableEq, Repr

/-- The UI events, one per React event handler of `App`. `copy` carries the
success bit the environment returns for the clipboard write; `save` carries
the `Date.now()` reading `createItem` would take. -/
inductive Ev where
  | copy (content : String) (ok : Bool) : Ev
  | toggleEditList : Ev
  | toggleSelection (id : String) : Ev
  | deleteSelected : Ev
  | startEdit (item : Option PasterItem) : Ev
  | cancel : Ev
  | save (now : Nat) : Ev

/-- One event handler step of `App` (`src/src/App.tsx`):

* `copy`: `handleCopy` (lines 31-37) — returns untouched unless the UI state
  is `default`; otherwise triggers the clipboard write, and shows the
  2-second `Copied!` toast when the write succeeded.
  `copyToClipboard` itself lives in `src/utils/clipboard.ts`, which is not
  among the repository files. Modelled from the spec: it copies the content
  to the system clipboard and reports success, failures being recovered by
  suppressing the toast.
* `toggleEditList`: `toggleEditList` (lines 40-47).
* `toggleSelection`: `toggleSelection` (lines 50-58) — JS `Set` modelled as a
  duplicate-free list.
* `deleteSelected`: `handleDeleteSelected` (lines 61-68).
* `startEdit`: `startEdit` (lines 71-83).
* `cancel`: `cancelEdit` (lines 86-91).
* `save`: `handleSave` (lines 94-113) — the guard trims both buffers; on
  commit the `default` revision appends the created record. -/
def step (s : AppSt) : Ev → AppSt
  | .copy content ok =>
    if s.ui ≠ .default then s
    else { s with writes := s.writes ++ [content],
                  toasts := s.toasts ++ (if ok then [("Copied!", 2000)] else []) }
  | .toggleEditList =>
    if s.ui = .editList then { s with ui := .default, selectedIds := [] }
    else { s with ui := .editList }
  | .toggleSelection id =>
    if s.selectedIds.contains id then
      { s with selectedIds := s.selectedIds.filter (fun x => x ≠ id) }
    else
      { s with selectedIds := s.selectedIds ++ [id] }
  | .deleteSelected =>
    if s.selectedIds = [] then s
    else
      let updated := deleteItems s.items s.selectedIds
      { s with items := updated, store := some (saveItems updated),
               selectedIds := [], ui := .default }
  | .startEdit x =>
    match x with
    | some it => { s with editingItem := some it, editLabel := it.label,
                          editContent := it.content, ui := .editItem }
    | none => { s with editingItem := none, editLabel := "",
                       editContent := "", ui := .editItem }
  | .cancel =>
    { s with ui := .default, editingItem := none, editLabel := "", editContent := "" }
  | .save now =>
    if strTrim s.editLabel = "" ∨ strTrim s.editContent = "" then s
    else
      let updated :=
        match s.editingItem with
        | some it => updateItem s.items it.id (strTrim s.editLabel) (strTrim s.editContent)
        | none => s.items ++ [createItem (strTrim s.editLabel) (strTrim s.editContent) now]
      { s with items := updated, store := some (saveItems updated),
               ui := .default, editingItem := none, editLabel := "", editContent := "" }

/-- Which handlers the rendered UI of `App` can fire in each state, read off
the JSX: the copy surface and the per-item edit buttons render in `default`,
the `Edit List` / `Done` header button in `default` and `editList`, the
checkboxes and `Delete Selected` (rendered only for a nonempty selection) in
`editList`, the form's `Cancel` / `Save` in `editItem`, and the
`Add New Item` button in `default` and `editItem`. -/
def enabled (s : AppSt) : Ev → Prop
  | .copy _ _ => s.ui = .default
  | .toggleEditList => s.ui = .default ∨ s.ui = .editList
  | .toggleSelection id => s.ui = .editList ∧ id ∈ s.items.map PasterItem.id
  | .deleteSelected => s.ui = .editList ∧ s.selectedIds ≠ []
  | .startEdit none => s.ui = .default ∨ s.ui = .editItem
  | .startEdit (some it) => (s.ui = .default ∨ s.ui = .editItem) ∧ it ∈ s.items
  | .cancel => s.ui = .editItem
  | .save _ => s.ui = .editItem

/-- The state-to-state transitions the specification lists for the View
Controller: `Default → EditItem`, `EditItem → Default`, `Default ↔ EditList`. -/
def allowedTrans : UiState → UiState → Prop
  | .default, .editItem => True
  | .editItem, .default => True
  | .default, .editList => True
  | .editList, .default => True
  | _, _ => False

/-- A concrete snippet, for the witness instantiations. -/
def sampleItem : PasterItem :=
  { id := "1", label := "demo", content := "hello", createdAt := 1 }

/-- A concrete application state in the `default` UI state, for the witness
instantiations. -/
def sampleSt : AppSt :=
  { items := [sampleItem], ui := .default, selectedIds := [],
    editingItem := none, editLabel := "", editContent := "",
    store := none, writes := [], toasts := [] }

/-- Helper: `Nat.digitChar` of a value below ten is a decimal digit. -/
theorem digitChar_isDigit {m : Nat} (h : m < 10) : (Nat.digitChar m).isDigit = true := by
  interval_cases m <;> decide

/-- Helper: the code point of `Nat.digitChar m` for `m < 10`. -/
theorem digitChar_toNat {m : Nat} (h : m < 10) : (Nat.digitChar m).toNat = 48 + m := by
  interval_cases m <;> decide

/-- Helper: `hexVal` inverts `Nat.digitChar` below sixteen. -/
theorem hexVal_digitChar {m : Nat} (h : m < 16) : hexVal (Nat.digitChar m) = some m := by
  interval_cases m <;> decide

/-- Helper: the code-point range of a decimal digit. -/
theorem isDigit_toNat {c : Char} (h : c.isDigit = true) : 48 ≤ c.toNat ∧ c.toNat ≤ 57 := by
  simp only [Char.isDigit, Bool.and_eq_true, decide_eq_true_eq] at h
  exact ⟨h.1, h.2⟩

/-- Helper: a printed natural number is nonempty and starts with a digit. -/
theorem natChars_cons (n : Nat) :
    ∃ d ds, natChars n = d :: ds ∧ d.isDigit = true := by
  induction n using Nat.strong_induction_on with
  | _ n ih =>
    rw [natChars]
    split
    · next h => exact ⟨_, _, rfl, digitChar_isDigit h⟩
    · next h =>
      obtain ⟨d, ds, hd, hdig⟩ := ih (n / 10) (Nat.div_lt_self (by omega) (by omega))
      exact ⟨d, ds ++ [Nat.digitChar (n % 10)], by rw [hd]; rfl, hdig⟩

/-- Helper: `digitsVal` stops immediately on a non-digit continuation. -/
theorem digitsVal_stop {cs : List Char} (h : okTail cs = true) (acc : Nat) :
    digitsVal cs acc = (acc, cs) := by
  cases cs with
  | nil => rfl
  | cons c r =>
    simp only [okTail, Bool.not_eq_true'] at h
    simp [digitsVal, h]

/-- Helper: reading the printed digits of `n` shifts the accumulator by the
digit count and adds `n`. -/
theorem digitsVal_natChars (n : Nat) :
    ∀ (acc : Nat) (rest : List Char),
      digitsVal (natChars n ++ rest) acc =
        digitsVal rest (acc * 10 ^ (natChars n).length + n) := by
  induction n using Nat.strong_induction_on with
  | _ n ih =>
    intro acc rest
    rw [natChars]
    split
    · next h =>
      simp only [List.singleton_append, digitsVal, digitChar_isDigit h, if_true,
        digitChar_toNat h, List.length_singleton]
      norm_num
    · next h =>
      rw [List.append_assoc]
      rw [ih (n / 10) (Nat.div_lt_self (by omega) (by omega))]
      simp only [List.singleton_append, digitsVal,
        digitChar_isDigit (show n % 10 < 10 by omega), if_true,
        digitChar_toNat (show n % 10 < 10 by omega), List.length_append,
        List.length_singleton]
      have heq : (acc * 10 ^ (natChars (n / 10)).length + n / 10) * 10 + (48 + n % 10 - 48) =
          acc * 10 ^ ((natChars (n / 10)).length + 1) + n := by
        have hmod : 48 + n % 10 - 48 = n % 10 := by omega
        rw [pow_succ, hmod]
        generalize (10 : Nat) ^ (natChars (n / 10)).length = p
        ring_nf
        omega
      rw [heq]
      rfl

/-- Helper: reading back a printed natural number from accumulator zero. -/
theorem digitsVal_natChars_zero {n : Nat} {rest : List Char} (h : okTail rest = true) :
    digitsVal (natChars n ++ rest) 0 = (n, rest) := by
  rw [digitsVal_natChars, digitsVal_stop h]
  simp

/-- Helper: the string-body parser decodes one printed escape back to the
character it came from, spending one unit of fuel. -/
theorem parseStrBodyFuel_escChar (fuel : Nat) (c : Char) (tail : List Char) :
    parseStrBodyFuel (fuel + 1) (escChar c ++ tail) =
      (parseStrBodyFuel fuel tail).map (fun p => (c :: p.1, p.2)) := by
  have h0 : hexVal '0' = some 0 := by decide
  rw [escChar]
  split_ifs with h1 h2 h3 h4 h5 h6 h7 h8
  · subst h1
    cases h : parseStrBodyFuel fuel tail <;> simp [parseStrBodyFuel, unescChar, h]
  · subst h2
    cases h : parseStrBodyFuel fuel tail <;> simp [parseStrBodyFuel, unescChar, h]
  · subst h3
    cases h : parseStrBodyFuel fuel tail <;> simp [parseStrBodyFuel, unescChar, h]
  · subst h4
    cases h : parseStrBodyFuel fuel tail <;> simp [parseStrBodyFuel, unescChar, h]
  · subst h5
    cases h : parseStrBodyFuel fuel tail <;> simp [parseStrBodyFuel, unescChar, h]
  · subst h6
    cases h : parseStrBodyFuel fuel tail <;> simp [parseStrBodyFuel, unescChar, h]
  · subst h7
    cases h : parseStrBodyFuel fuel tail <;> simp [parseStrBodyFuel, unescChar, h]
  · have hd1 := hexVal_digitChar (show c.toNat / 16 < 16 by omega)
    have hd2 := hexVal_digitChar (show c.toNat % 16 < 16 by omega)
    have hval : ((0 * 16 + 0) * 16 + c.toNat / 16) * 16 + c.toNat % 16 = c.toNat := by omega
    have hval2 : c.toNat / 16 * 16 + c.toNat % 16 = c.toNat := by omega
    cases h : parseStrBodyFuel fuel tail <;>
      simp [parseStrBodyFuel, h0, hd1, hd2, h, hval, hval2, Char.ofNat_toNat]
  · cases h : parseStrBodyFuel fuel tail <;> simp [parseStrBodyFuel, h1, h2, h8, h]

/-- Helper: the string-body parser decodes a whole escaped body, given fuel
for each character and the closing quote. -/
theorem parseStrBodyFuel_flatMap (cs : List Char) :
    ∀ (fuel : Nat) (tail : List Char), cs.length + 1 ≤ fuel →
      parseStrBodyFuel fuel (cs.flatMap escChar ++ ('"' :: tail)) = some (cs, tail) := by
  induction cs with
  | nil =>
    intro fuel tail h
    cases fuel with
    | zero => omega
    | succ f => rfl
  | cons c cs ih =>
    intro fuel tail h
    cases fuel with
    | zero => omega
    | succ f =>
      rw [List.flatMap_cons, List.append_assoc, parseStrBodyFuel_escChar,
        ih f tail (by simpa using Nat.lt_of_succ_le h)]
      rfl

/-- Helper: every escape is at least one character long. -/
theorem one_le_length_escChar (c : Char) : 1 ≤ (escChar c).length := by
  rw [escChar]
  split_ifs <;> simp

/-- Helper: escaping never shortens a string. -/
theorem length_le_flatMap_escChar (cs : List Char) :
    cs.length ≤ (cs.flatMap escChar).length := by
  induction cs with
  | nil => simp
  | cons c cs ih =>
    have := one_le_length_escChar c
    simp only [List.flatMap_cons, List.length_append, List.length_cons]
    omega

/-- Helper: `parseStrBody` inverts the printer on any escaped body; the
input itself supplies sufficient fuel. -/
theorem parseStrBody_flatMap (cs : List Char) (tail : List Char) :
    parseStrBody (cs.flatMap escChar ++ ('"' :: tail)) = some (cs, tail) := by
  apply parseStrBodyFuel_flatMap
  have := length_le_flatMap_escChar cs
  simp only [List.length_append, List.length_cons]
  omega

/-- Helper: a printed array tail never starts with a digit. -/
theorem elemsTailChars_okTail (xs : List Json) (rest : List Char) :
    okTail (elemsTailChars xs ++ rest) = true := by
  cases xs <;> rfl

/-- Helper: a printed object tail never starts with a digit. -/
theorem fieldsTailChars_okTail (fs : List (String × Json)) (rest : List Char) :
    okTail (fieldsTailChars fs ++ rest) = true := by
  cases fs <;> rfl

/-- Helper: a digit is none of the JSON delimiter characters. -/
theorem isDigit_ne_delims {d : Char} (h : d.isDigit = true) :
    d ≠ '"' ∧ d ≠ '[' ∧ d ≠ '\x7b' ∧ d ≠ '-' ∧ d ≠ ']' := by
  refine ⟨fun e => absurd (e ▸ h) (by decide), fun e => absurd (e ▸ h) (by decide),
    fun e => absurd (e ▸ h) (by decide), fun e => absurd (e ▸ h) (by decide),
    fun e => absurd (e ▸ h) (by decide)⟩

/-- Helper: a printed value is nonempty and never starts with a closing
bracket. -/
theorem jsonChars_head (v : Json) :
    ∃ c t, jsonChars v = c :: t ∧ c ≠ ']' := by
  cases v with
  | null => exact ⟨_, _, rfl, by decide⟩
  | bool b => cases b with
    | true => exact ⟨_, _, rfl, by decide⟩
    | false => exact ⟨_, _, rfl, by decide⟩
  | num i =>
    by_cases h : i < 0
    · exact ⟨'-', natChars i.natAbs, by simp [jsonChars, intChars, h], by decide⟩
    · obtain ⟨d, ds, hd, hdig⟩ := natChars_cons i.toNat
      exact ⟨d, ds, by simp [jsonChars, intChars, h, hd], (isDigit_ne_delims hdig).2.2.2.2⟩
  | str s => exact ⟨_, _, rfl, by decide⟩
  | arr xs => exact ⟨_, _, rfl, by decide⟩
  | obj fs => exact ⟨_, _, rfl, by decide⟩

/-- Helper: every fuel requirement is positive. -/
theorem one_le_needV (v : Json) : 1 ≤ needV v := by
  cases v <;> simp [needV]

theorem one_le_needE (xs : List Json) : 1 ≤ needE xs := by
  cases xs <;> simp [needE]

theorem one_le_needET (xs : List Json) : 1 ≤ needET xs := by
  cases xs <;> simp [needET]

theorem one_le_needF (fs : List (String × Json)) : 1 ≤ needF fs := by
  cases fs <;> simp [needF]

theorem one_le_needFT (fs : List (String × Json)) : 1 ≤ needFT fs := by
  cases fs <;> simp [needFT]

/-- Helper: `parseNatChars` inverts `natChars` before a non-digit
continuation. -/
theorem parseNatChars_natChars (n : Nat) (rest : List Char) (hok : okTail rest = true) :
    parseNatChars (natChars n ++ rest) = some (n, rest) := by
  obtain ⟨d, ds, hd, hdig⟩ := natChars_cons n
  rw [hd, List.cons_append]
  simp only [parseNatChars, hdig, if_true]
  rw [← List.cons_append, ← hd, digitsVal_natChars_zero hok]

/-- Helper: one unfolding step of `parseElems` on a non-bracket head. -/
theorem parseElems_cons (f : Nat) (c : Char) (rest : List Char) (hc : c ≠ ']') :
    parseElems (f + 1) (c :: rest) =
      (parseValue f (c :: rest)).bind (fun p =>
        (parseElemsTail f p.2).bind (fun q => some (p.1 :: q.1, q.2))) := by
  simp only [parseElems, if_neg hc]
  rfl

/-- Helper: one unfolding step of `parseValue` on a digit head. -/
theorem parseValue_digit (f : Nat) (c : Char) (rest : List Char) (hd : c.isDigit = true)
    (h1 : ¬ c = '"') (h2 : ¬ c = '[') (h3 : ¬ c = '\x7b') (h4 : ¬ c = '-') :
    parseValue (f + 1) (c :: rest) =
      some (.num ((digitsVal (c :: rest) 0).1 : Int), (digitsVal (c :: rest) 0).2) := by
  simp only [parseValue, if_neg h1, if_neg h2, if_neg h3, if_neg h4, hd, if_true]

/-- The parser inverts the printer: with enough fuel, each parsing function
consumes exactly the printed form of a value (array body, array tail, object
body, object tail), returning the value and the untouched continuation. The
continuation after a whole value may not start with a digit, which holds at
every call site. Proved by induction on the fuel. -/
theorem parse_print : ∀ fuel : Nat,
    (∀ (v : Json) (rest : List Char), needV v ≤ fuel → okTail rest = true →
      parseValue fuel (jsonChars v ++ rest) = some (v, rest)) ∧
    (∀ (xs : List Json) (rest : List Char), needE xs ≤ fuel →
      parseElems fuel (elemsChars xs ++ rest) = some (xs, rest)) ∧
    (∀ (xs : List Json) (rest : List Char), needET xs ≤ fuel →
      parseElemsTail fuel (elemsTailChars xs ++ rest) = some (xs, rest)) ∧
    (∀ (fs : List (String × Json)) (rest : List Char), needF fs ≤ fuel →
      parseFields fuel (fieldsChars fs ++ rest) = some (fs, rest)) ∧
    (∀ (fs : List (String × Json)) (rest : List Char), needFT fs ≤ fuel →
      parseFieldsTail fuel (fieldsTailChars fs ++ rest) = some (fs, rest)) := by
  intro fuel
  induction fuel with
  | zero =>
    refine ⟨fun v rest hn _ => absurd hn (by have := one_le_needV v; omega),
            fun xs rest hn => absurd hn (by have := one_le_needE xs; omega),
            fun xs rest hn => absurd hn (by have := one_le_needET xs; omega),
            fun fs rest hn => absurd hn (by have := one_le_needF fs; omega),
            fun fs rest hn => absurd hn (by have := one_le_needFT fs; omega)⟩
  | succ f ih =>
    obtain ⟨ihV, ihE, ihET, ihF, ihFT⟩ := ih
    refine ⟨?_, ?_, ?_, ?_, ?_⟩
    · intro v rest hn hok
      cases v with
      | null => rfl
      | bool b => cases b <;> rfl
      | num i =>
        by_cases hi : i < 0
        · have hj : jsonChars (.num i) = '-' :: natChars i.natAbs := by
            simp [jsonChars, intChars, hi]
          rw [hj, List.cons_append]
          rw [show parseValue (f + 1) ('-' :: (natChars i.natAbs ++ rest)) =
              (parseNatChars (natChars i.natAbs ++ rest)).bind
                (fun p => some (.num (-(p.1 : Int)), p.2)) from rfl]
          rw [parseNatChars_natChars _ _ hok]
          show some (Json.num (-(i.natAbs : Int)), rest) = some (.num i, rest)
          have : -(i.natAbs : Int) = i := by omega
          rw [this]
        · have hj : jsonChars (.num i) = natChars i.toNat := by
            simp [jsonChars, intChars, hi]
          obtain ⟨d, ds, hd, hdig⟩ := natChars_cons i.toNat
          obtain ⟨hne1, hne2, hne3, hne4, _⟩ := isDigit_ne_delims hdig
          rw [hj, hd, List.cons_append, parseValue_digit f d _ hdig hne1 hne2 hne3 hne4,
            ← List.cons_append, ← hd, digitsVal_natChars_zero hok]
          show some (Json.num (i.toNat : Int), rest) = some (.num i, rest)
          have : (i.toNat : Int) = i := Int.toNat_of_nonneg (by omega)
          rw [this]
      | str s =>
        show parseValue (f + 1) (('"' :: (s.data.flatMap escChar ++ ['"'])) ++ rest) =
          some (.str s, rest)
        rw [List.cons_append, List.append_assoc]
        rw [show parseValue (f + 1) ('"' :: (s.data.flatMap escChar ++ (['"'] ++ rest))) =
            (parseStrBody (s.data.flatMap escChar ++ (['"'] ++ rest))).bind
              (fun p => some (.str (String.mk p.1), p.2)) from rfl]
        rw [List.singleton_append, parseStrBody_flatMap]
        rfl
      | arr xs =>
        show parseValue (f + 1) (('[' :: elemsChars xs) ++ rest) = some (.arr xs, rest)
        rw [List.cons_append]
        rw [show parseValue (f + 1) ('[' :: (elemsChars xs ++ rest)) =
            (parseElems f (elemsChars xs ++ rest)).bind
              (fun p => some (.arr p.1, p.2)) from rfl]
        rw [ihE xs rest (by simp [needV] at hn; omega)]
        rfl
      | obj fs =>
        show parseValue (f + 1) (('\x7b' :: fieldsChars fs) ++ rest) = some (.obj fs, rest)
        rw [List.cons_append]
        rw [show parseValue (f + 1) ('\x7b' :: (fieldsChars fs ++ rest)) =
            (parseFields f (fieldsChars fs ++ rest)).bind
              (fun p => some (.obj p.1, p.2)) from rfl]
        rw [ihF fs rest (by simp [needV] at hn; omega)]
        rfl
    · intro xs rest hn
      cases xs with
      | nil => rfl
      | cons x xs =>
        obtain ⟨c, t, hx, hc⟩ := jsonChars_head x
        show parseElems (f + 1) ((jsonChars x ++ elemsTailChars xs) ++ rest) =
          some (x :: xs, rest)
        rw [List.append_assoc, hx, List.cons_append, parseElems_cons f c _ hc,
          ← List.cons_append, ← hx]
        rw [ihV x (elemsTailChars xs ++ rest) (by simp [needE] at hn; omega)
          (elemsTailChars_okTail xs rest)]
        show (parseElemsTail f (elemsTailChars xs ++ rest)).bind
          (fun q => some (x :: q.1, q.2)) = some (x :: xs, rest)
        rw [ihET xs rest (by simp [needE] at hn; omega)]
        rfl
    · intro xs rest hn
      cases xs with
      | nil => rfl
      | cons x xs =>
        show parseElemsTail (f + 1) ((',' :: (jsonChars x ++ elemsTailChars xs)) ++ rest) =
          some (x :: xs, rest)
        rw [List.cons_append, List.append_assoc]
        rw [show parseElemsTail (f + 1) (',' :: (jsonChars x ++ (elemsTailChars xs ++ rest))) =
            (parseValue f (jsonChars x ++ (elemsTailChars xs ++ rest))).bind (fun p =>
              (parseElemsTail f p.2).bind (fun q => some (p.1 :: q.1, q.2))) from rfl]
        rw [ihV x (elemsTailChars xs ++ rest) (by simp [needET] at hn; omega)
          (elemsTailChars_okTail xs rest)]
        show (parseElemsTail f (elemsTailChars xs ++ rest)).bind
          (fun q => some (x :: q.1, q.2)) = some (x :: xs, rest)
        rw [ihET xs rest (by simp [needET] at hn; omega)]
        rfl
    · intro fs rest hn
      cases fs with
      | nil => rfl
      | cons kv fs =>
        obtain ⟨k, v⟩ := kv
        show parseFields (f + 1)
          ((('"' :: (k.data.flatMap escChar ++ ['"'])) ++
            (':' :: (jsonChars v ++ fieldsTailChars fs))) ++ rest) = some ((k, v) :: fs, rest)
        rw [List.cons_append, List.cons_append, List.append_assoc, List.append_assoc]
        rw [show parseFields (f + 1) ('"' :: (k.data.flatMap escChar ++
              (['"'] ++ ((':' :: (jsonChars v ++ fieldsTailChars fs)) ++ rest)))) =
            (parseStrBody (k.data.flatMap escChar ++
              (['"'] ++ ((':' :: (jsonChars v ++ fieldsTailChars fs)) ++ rest)))).bind (fun p =>
              match p.2 with
              | ':' :: r2 =>
                (parseValue f r2).bind (fun q =>
                  (parseFieldsTail f q.2).bind (fun w =>
                    some ((String.mk p.1, q.1) :: w.1, w.2)))
              | _ => none) from rfl]
        rw [List.singleton_append, parseStrBody_flatMap]
        show (parseValue f ((jsonChars v ++ fieldsTailChars fs) ++ rest)).bind (fun q =>
          (parseFieldsTail f q.2).bind (fun w =>
            some ((String.mk k.data, q.1) :: w.1, w.2))) = some ((k, v) :: fs, rest)
        rw [List.append_assoc]
        rw [ihV v (fieldsTailChars fs ++ rest) (by simp [needF] at hn; omega)
          (fieldsTailChars_okTail fs rest)]
        show (parseFieldsTail f (fieldsTailChars fs ++ rest)).bind (fun w =>
          some ((String.mk k.data, v) :: w.1, w.2)) = some ((k, v) :: fs, rest)
        rw [ihFT fs rest (by simp [needF] at hn; omega)]
        rfl
    · intro fs rest hn
      cases fs with
      | nil => rfl
      | cons kv fs =>
        obtain ⟨k, v⟩ := kv
        show parseFieldsTail (f + 1)
          ((',' :: (('"' :: (k.data.flatMap escChar ++ ['"'])) ++
            (':' :: (jsonChars v ++ fieldsTailChars fs)))) ++ rest) = some ((k, v) :: fs, rest)
        rw [List.cons_append, List.cons_append, List.cons_append, List.append_assoc,
          List.append_assoc]
        rw [show parseFieldsTail (f + 1) (',' :: '"' :: (k.data.flatMap escChar ++
              (['"'] ++ ((':' :: (jsonChars v ++ fieldsTailChars fs)) ++ rest)))) =
            (parseStrBody (k.data.flatMap escChar ++
              (['"'] ++ ((':' :: (jsonChars v ++ fieldsTailChars fs)) ++ rest)))).bind (fun p =>
              match p.2 with
              | ':' :: r2 =>
                (parseValue f r2).bind (fun q =>
                  (parseFieldsTail f q.2).bind (fun w =>
                    some ((String.mk p.1, q.1) :: w.1, w.2)))
              | _ => none) from rfl]
        rw [List.singleton_append, parseStrBody_flatMap]
        show (parseValue f ((jsonChars v ++ fieldsTailChars fs) ++ rest)).bind (fun q =>
          (parseFieldsTail f q.2).bind (fun w =>
            some ((String.mk k.data, q.1) :: w.1, w.2))) = some ((k, v) :: fs, rest)
        rw [List.append_assoc]
        rw [ihV v (fieldsTailChars fs ++ rest) (by simp [needFT] at hn; omega)
          (fieldsTailChars_okTail fs rest)]
        show (parseFieldsTail f (fieldsTailChars fs ++ rest)).bind (fun w =>
          some ((String.mk k.data, v) :: w.1, w.2)) = some ((k, v) :: fs, rest)
        rw [ihFT fs rest (by simp [needFT] at hn; omega)]
        rfl

/-- Helper: every `Json` value has positive size. -/
theorem json_sizeOf_pos (v : Json) : 0 < sizeOf v := by
  cases v <;> simp

/-- The fuel each parsing function needs on a printed value is at most the
printed length, so the input length (plus one) that `jsonParse` supplies is
always enough. Proved by strong induction on the size. -/
theorem need_le_len : ∀ n : Nat,
    (∀ v : Json, sizeOf v ≤ n → needV v ≤ (jsonChars v).length) ∧
    (∀ xs : List Json, sizeOf xs ≤ n →
      needE xs ≤ (elemsChars xs).length ∧ needET xs ≤ (elemsTailChars xs).length) ∧
    (∀ fs : List (String × Json), sizeOf fs ≤ n →
      needF fs ≤ (fieldsChars fs).length ∧ needFT fs ≤ (fieldsTailChars fs).length) := by
  intro n
  induction n with
  | zero =>
    refine ⟨fun v hv => absurd hv (by have := json_sizeOf_pos v; omega),
            fun xs hxs => absurd hxs (by cases xs <;> simp),
            fun fs hfs => absurd hfs (by cases fs <;> simp)⟩
  | succ m ih =>
    obtain ⟨ihv, ihe, ihf⟩ := ih
    refine ⟨?_, ?_, ?_⟩
    · intro v hv
      cases v with
      | null => simp [needV, jsonChars]
      | bool b => cases b <;> simp [needV, jsonChars]
      | num i =>
        obtain ⟨c, t, hct, _⟩ := jsonChars_head (.num i)
        simp [needV, hct]
      | str s =>
        simp [needV, jsonChars, strChars]
      | arr xs =>
        have hs : sizeOf xs ≤ m := by
          have := Json.arr.sizeOf_spec xs
          omega
        have h1 := (ihe xs hs).1
        simp only [needV, jsonChars, List.length_cons]
        omega
      | obj fs =>
        have hs : sizeOf fs ≤ m := by
          have := Json.obj.sizeOf_spec fs
          omega
        have h1 := (ihf fs hs).1
        simp only [needV, jsonChars, List.length_cons]
        omega
    · intro xs hxs
      cases xs with
      | nil => constructor <;> simp [needE, needET, elemsChars, elemsTailChars]
      | cons x xs =>
        have hsz := List.cons.sizeOf_spec x xs
        have hx : sizeOf x ≤ m := by omega
        have hxs2 : sizeOf xs ≤ m := by omega
        have h1 := ihv x hx
        have h2 := (ihe xs hxs2).2
        have hlx : 1 ≤ (jsonChars x).length := by
          obtain ⟨c, t, hct, _⟩ := jsonChars_head x
          simp [hct]
        have hlt : 1 ≤ (elemsTailChars xs).length := by
          cases xs <;> simp [elemsTailChars]
        constructor
        · simp only [needE, elemsChars, List.length_append]
          omega
        · simp only [needET, elemsTailChars, List.length_cons, List.length_append]
          omega
    · intro fs hfs
      cases fs with
      | nil => constructor <;> simp [needF, needFT, fieldsChars, fieldsTailChars]
      | cons kv fs =>
        obtain ⟨k, v⟩ := kv
        have hsz := List.cons.sizeOf_spec (k, v) fs
        have hkv := Prod.mk.sizeOf_spec k v
        have hv : sizeOf v ≤ m := by omega
        have hfs2 : sizeOf fs ≤ m := by omega
        have h1 := ihv v hv
        have h2 := (ihf fs hfs2).2
        have hlv : 1 ≤ (jsonChars v).length := by
          obtain ⟨c, t, hct, _⟩ := jsonChars_head v
          simp [hct]
        have hlt : 1 ≤ (fieldsTailChars fs).length := by
          cases fs <;> simp [fieldsTailChars]
        constructor
        · simp only [needF, fieldsChars, List.length_append, List.length_cons]
          omega
        · simp only [needFT, fieldsTailChars, List.length_append, List.length_cons]
          omega

/-- `JSON.parse` inverts `JSON.stringify` on every value. -/
theorem jsonParse_jsonStringify (v : Json) : jsonParse (jsonStringify v) = some v := by
  have hb : needV v ≤ (jsonChars v).length := (need_le_len (sizeOf v)).1 v le_rfl
  have h := (parse_print ((jsonChars v).length + 1)).1 v [] (by omega) rfl
  rw [List.append_nil] at h
  show (match parseValue ((jsonChars v).length + 1) (jsonChars v) with
    | some (v, []) => some v
    | _ => none) = some v
  rw [h]

/-- C9: persistence is round-trip idempotent. For every persisted byte
string - missing, malformed, or valid - serializing the loaded collection
once and then loading and serializing again leaves the same serialized bytes
as after the first pass: `save(load())` is a fixed point from the first
application on (the claim only requires it from the second). -/
theorem save_load_idempotent :
    ∀ stored : Option String,
      saveRawItems (loadItems (some (saveRawItems (loadItems stored)))) =
        saveRawItems (loadItems stored) := by
  intro stored
  have key : ∀ v : Json, loadItems (some (saveRawItems v)) = v := by
    intro v
    simp [loadItems, saveRawItems, jsonParse_jsonStringify]
  rw [key]

/-- Helper: `List.contains` on strings agrees with membership. -/
theorem strContains_iff (l : List String) (a : String) : l.contains a = true ↔ a ∈ l := by
  simp [List.contains_iff_exists_mem_beq]

/-- C1 (counterexample): the unique-id postcondition fails as stated. At
`now = 5`, `createItem` returns the id `"5"`, which collides with a
collection already holding a snippet with id `"5"`. -/
theorem createItem_unique_id_fails :
    ¬ ∀ (items : List PasterItem) (label content : String) (now : Nat),
        ∀ it ∈ items, (createItem label content now).id ≠ it.id := by
  intro h
  exact h [{ id := "5", label := "a", content := "b", createdAt := 5 }] "x" "y" 5
    { id := "5", label := "a", content := "b", createdAt := 5 } (by simp) (by decide)

/-- C1 (amended): whenever no existing snippet's id equals the decimal string
of the current `Date.now()` reading — in particular whenever every existing
snippet carries an earlier timestamp-derived id — `createItem` returns an id
distinct from every id in the collection. -/
theorem createItem_unique_id :
    ∀ (items : List PasterItem) (label content : String) (now : Nat),
      (∀ it ∈ items, it.id ≠ toString now) →
      ∀ it ∈ items, (createItem label content now).id ≠ it.id := by
  intro items label content now h it hm e
  exact h it hm (by simpa [createItem] using e.symm)

/-- C1 (witness): the amended theorem applied to a one-snippet collection
whose id differs from the current timestamp string. -/
theorem createItem_unique_id_witness :
    (createItem "x" "y" 2).id ≠ sampleItem.id :=
  createItem_unique_id [sampleItem] "x" "y" 2 (by decide) sampleItem (by simp)

/-- C5: `updateItem` preserves the length and the position of every record;
the record at a matching position keeps its `id` and `createdAt` and receives
the new `label` and `content`, and every non-matching record is returned
unchanged at its position. -/
theorem updateItem_frame :
    ∀ (items : List PasterItem) (id label content : String),
      (updateItem items id label content).length = items.length ∧
      ∀ (i : Nat) (it : PasterItem), items[i]? = some it →
        ((it.id = id →
           (updateItem items id label content)[i]? =
             some { id := it.id, label := label, content := content, createdAt := it.createdAt }) ∧
         (it.id ≠ id → (updateItem items id label content)[i]? = some it)) := by
  intro items id label content
  refine ⟨by simp [updateItem], ?_⟩
  intro i it h
  constructor
  · intro hid
    simp [updateItem, List.getElem?_map, h, hid]
  · intro hid
    simp [updateItem, List.getElem?_map, h, hid]

/-- C5 (witness): updating the matching snippet of a one-snippet collection
rewrites label and content and keeps id and createdAt. -/
theorem updateItem_frame_witness :
    (updateItem [sampleItem] "1" "L" "C")[0]? =
      some { id := "1", label := "L", content := "C", createdAt := 1 } :=
  ((updateItem_frame [sampleItem] "1" "L" "C").2 0 sampleItem rfl).1 rfl

/-- C6: `deleteItems` removes exactly the snippets whose id is in `ids`: a
snippet survives iff its id is not requested, and when no requested id
matches any snippet the collection is returned unchanged. -/
theorem deleteItems_exact :
    ∀ (items : List PasterItem) (ids : List String),
      (∀ it : PasterItem, it ∈ deleteItems items ids ↔ it ∈ items ∧ it.id ∉ ids) ∧
      ((∀ id ∈ ids, ∀ it ∈ items, it.id ≠ id) → deleteItems items ids = items) := by
  intro items ids
  constructor
  · intro it
    simp only [deleteItems, List.mem_filter, Bool.not_eq_true']
    constructor
    · rintro ⟨h1, h2⟩
      exact ⟨h1, fun hm => by rw [(strContains_iff ids it.id).mpr hm] at h2; cases h2⟩
    · rintro ⟨h1, h2⟩
      refine ⟨h1, ?_⟩
      cases hc : ids.contains it.id with
      | false => rfl
      | true => exact absurd ((strContains_iff ids it.id).mp hc) h2
  · intro h
    refine List.filter_eq_self.mpr ?_
    intro a ha
    simp only [Bool.not_eq_true']
    cases hc : ids.contains a.id with
    | false => rfl
    | true => exact absurd rfl (h a.id ((strContains_iff ids a.id).mp hc) a ha)

/-- C6 (witness): deleting an id that matches no snippet leaves the
collection unchanged. -/
theorem deleteItems_exact_witness :
    deleteItems [sampleItem] ["z"] = [sampleItem] :=
  (deleteItems_exact [sampleItem] ["z"]).2 (by decide)

/-- C10: `deleteItems` returns a sublist of the input: the retained snippets
keep their relative order and are returned structurally unchanged, and the
input collection itself is untouched (the embedding is pure). -/
theorem deleteItems_order_frame :
    ∀ (items : List PasterItem) (ids : List String),
      List.Sublist (deleteItems items ids) items ∧
      ∀ it ∈ deleteItems items ids, it ∈ items := by
  intro items ids
  exact ⟨List.filter_sublist items, fun it h => List.mem_of_mem_filter h⟩

/-- C10 (witness): the sublist property and the membership property at a
concrete collection. -/
theorem deleteItems_order_frame_witness :
    List.Sublist (deleteItems [sampleItem] ["z"]) [sampleItem] ∧
    sampleItem ∈ [sampleItem] :=
  ⟨(deleteItems_order_frame [sampleItem] ["z"]).1,
   (deleteItems_order_frame [sampleItem] ["z"]).2 sampleItem (by decide)⟩

/-- C4: load fails soft. Whenever the store is missing or its bytes do not
deserialize (`JSON.parse` fails), `loadItems` catches the failure and returns
the empty collection `[]`; it never propagates an error (it is total by
construction). -/
theorem loadItems_fail_soft :
    ∀ stored : Option String,
      stored.bind jsonParse = none → loadItems stored = Json.arr [] := by
  intro stored h
  cases stored with
  | none => rfl
  | some s =>
    simp only [Option.bind] at h
    simp [loadItems, h]

/-- C4 (witness): the malformed store `"["` makes `JSON.parse` fail and
`loadItems` returns the empty array. -/
theorem loadItems_fail_soft_witness :
    (Option.some (String.mk ['['])).bind jsonParse = none ∧
    loadItems (some (String.mk ['['])) = Json.arr [] :=
  ⟨rfl, loadItems_fail_soft (some (String.mk ['['])) rfl⟩

/-- C8: `cancelEdit` from the `editItem` state leaves the collection and the
persisted store untouched, returns the UI to `default`, and clears the
editing target and both edit buffers. -/
theorem cancelEdit_frame :
    ∀ s : AppSt, s.ui = .editItem →
      (step s .cancel).items = s.items ∧ (step s .cancel).store = s.store ∧
      (step s .cancel).ui = .default ∧ (step s .cancel).editingItem = none ∧
      (step s .cancel).editLabel = "" ∧ (step s .cancel).editContent = "" := by
  intro s _
  exact ⟨rfl, rfl, rfl, rfl, rfl, rfl⟩

/-- C8 (witness): cancel applied to a concrete `editItem` state. -/
theorem cancelEdit_frame_witness :
    (step { sampleSt with ui := .editItem } Ev.cancel).items =
      ({ sampleSt with ui := .editItem } : AppSt).items ∧
    (step { sampleSt with ui := .editItem } Ev.cancel).store =
      ({ sampleSt with ui := .editItem } : AppSt).store ∧
    (step { sampleSt with ui := .editItem } Ev.cancel).ui = .default ∧
    (step { sampleSt with ui := .editItem } Ev.cancel).editingItem = none ∧
    (step { sampleSt with ui := .editItem } Ev.cancel).editLabel = "" ∧
    (step { sampleSt with ui := .editItem } Ev.cancel).editContent = "" :=
  cancelEdit_frame { sampleSt with ui := .editItem } rfl

/-- C3: `handleCopy` in any UI state other than `default` is a silent no-op:
the state — the clipboard-write history and the toast history included — is
returned unchanged. In `default` it triggers the system clipboard write, and
when the write succeeds it emits the transient `Copied!` toast with the
2000 ms duration, touching neither the collection nor the store. -/
theorem handleCopy_state_guard :
    ∀ (s : AppSt) (c : String) (ok : Bool),
      (s.ui ≠ .default → step s (.copy c ok) = s) ∧
      (s.ui = .default →
        (step s (.copy c ok)).writes = s.writes ++ [c] ∧
        (ok = true → (step s (.copy c ok)).toasts = s.toasts ++ [("Copied!", 2000)]) ∧
        (step s (.copy c ok)).ui = s.ui ∧ (step s (.copy c ok)).items = s.items ∧
        (step s (.copy c ok)).store = s.store) := by
  intro s c ok
  constructor
  · intro h
    simp [step, h]
  · intro h
    refine ⟨by simp [step, h], ?_, by simp [step, h], by simp [step, h], by simp [step, h]⟩
    intro hok
    simp [step, h, hok]

/-- C3 (witness): a successful copy in the `default` state appends the write
and the 2-second toast. -/
theorem handleCopy_state_guard_witness :
    (step sampleSt (.copy "hi" true)).writes = sampleSt.writes ++ ["hi"] ∧
    (step sampleSt (.copy "hi" true)).toasts = sampleSt.toasts ++ [("Copied!", 2000)] :=
  ⟨((handleCopy_state_guard sampleSt "hi" true).2 rfl).1,
   ((handleCopy_state_guard sampleSt "hi" true).2 rfl).2.1 rfl⟩

/-- C2: every UI-state change any enabled handler can make stays within the
listed transition pairs — `default → editItem`, `editItem → default`,
`default ↔ editList` — in every state, the handler either leaves the UI state
where it was or takes one of the listed transitions. -/
theorem ui_transitions :
    ∀ (s : AppSt) (e : Ev), enabled s e →
      (step s e).ui = s.ui ∨ allowedTrans s.ui (step s e).ui := by
  intro s e he
  cases e with
  | copy c ok =>
    left
    simp only [step]
    split <;> rfl
  | toggleEditList =>
    rcases he with h | h
    · right
      simp [step, h, allowedTrans]
    · right
      simp [step, h, allowedTrans]
  | toggleSelection id =>
    left
    simp only [step]
    split <;> rfl
  | deleteSelected =>
    rcases he with ⟨h, hne⟩
    right
    simp only [step]
    rw [if_neg hne, h]
    trivial
  | startEdit x =>
    have hui : s.ui = .default ∨ s.ui = .editItem := by
      cases x with
      | none => exact he
      | some it => exact he.1
    rcases hui with h | h
    · right
      cases x <;> simp [step, h, allowedTrans]
    · left
      cases x <;> simp [step, h]
  | cancel =>
    right
    rw [show s.ui = UiState.editItem from he]
    simp [step, allowedTrans]
  | save now =>
    by_cases hg : strTrim s.editLabel = "" ∨ strTrim s.editContent = ""
    · left
      simp [step, hg]
    · right
      rw [show s.ui = UiState.editItem from he]
      simp [step, hg, allowedTrans]

/-- C2 (witness): toggling the edit list from the concrete `default` state. -/
theorem ui_transitions_witness :
    (step sampleSt Ev.toggleEditList).ui = sampleSt.ui ∨
    allowedTrans sampleSt.ui (step sampleSt Ev.toggleEditList).ui :=
  ui_transitions sampleSt Ev.toggleEditList (Or.inl rfl)

/-- C7: `handleSave` in the `editItem` state is a complete no-op whenever
either buffer trims to the empty string; otherwise it returns the UI to
`default`, commits an append-create when nothing is being edited and an
update when something is, and persists the committed collection to the
store. -/
theorem handleSave_guard :
    ∀ (s : AppSt) (now : Nat), s.ui = .editItem →
      ((strTrim s.editLabel = "" ∨ strTrim s.editContent = "") → step s (.save now) = s) ∧
      (strTrim s.editLabel ≠ "" → strTrim s.editContent ≠ "" →
        ((step s (.save now)).ui = .default ∧
         (s.editingItem = none →
           (step s (.save now)).items =
             s.items ++ [createItem (strTrim s.editLabel) (strTrim s.editContent) now]) ∧
         (∀ it, s.editingItem = some it →
           (step s (.save now)).items =
             updateItem s.items it.id (strTrim s.editLabel) (strTrim s.editContent)) ∧
         (step s (.save now)).store = some (saveItems (step s (.save now)).items))) := by
  intro s now _
  constructor
  · intro hg
    simp [step, hg]
  · intro h1 h2
    have hg : ¬ (strTrim s.editLabel = "" ∨ strTrim s.editContent = "") := by
      rintro (h | h)
      · exact h1 h
      · exact h2 h
    refine ⟨by simp [step, hg], ?_, ?_, ?_⟩
    · intro hnone
      simp [step, hg, hnone]
    · intro it hit
      simp [step, hg, hit]
    · simp [step, hg]

/-- C7 (witness): a whitespace-only label buffer makes save a no-op. -/
theorem handleSave_guard_witness :
    step { sampleSt with ui := .editItem, editLabel := " ", editContent := "c" } (Ev.save 7) =
      { sampleSt with ui := .editItem, editLabel := " ", editContent := "c" } :=
  (handleSave_guard { sampleSt with ui := .editItem, editLabel := " ", editContent := "c" } 7
    rfl).1 (Or.inl rfl)

end Paster
